import Mathlib

/-!
Verification of the retrieval-augmented chat core of ChampollionLM.

The definitions below are a shallow embedding, translated from
`backend/app/services/embedding.py` and `backend/app/services/base_chat.py`:

* `chunk_text`           — `_chunk_text` (overlapping word-window chunker)
* `source_hash`          — `_source_hash` (md5 of the sorted id list, truncated)
* `index_sources`        — `EmbeddingService.index_sources`
* `searchCore`           — `EmbeddingService.search` (keyword phase + vector phase)
* `agenticLoop`          — `BaseChatService._agentic_loop`
* `clean_response`       — `BaseChatService.clean_response` (Python `re.sub`)

Python machine-level details are embedded explicitly: 32-bit arithmetic is
`Nat` with `% 2 ^ 32`, Python `str.split()` / `str.lower()` / `in` are spelled
out on `List Char`, and `re` matching is a backtracking engine with Python's
leftmost-first, greedy-first semantics.
-/

set_option maxRecDepth 65536

namespace Champollion

/-! ### Chunker: `_chunk_text` -/

/-- Whitespace characters recognised by Python `str.split()` (ASCII range;
the sources in the claims contain only ASCII whitespace). -/
def pyIsSpace (c : Char) : Bool :=
  c = ' ' || c = '\t' || c = '\n' || c = '\x0b' || c = '\x0c' || c = '\r'

/-- Worker for `pySplit`: `acc` holds the current word, reversed. -/
def pySplitAux (acc : List Char) : List Char → List String
  | [] => if acc = [] then [] else [String.mk acc.reverse]
  | c :: rest =>
    if pyIsSpace c then
      if acc = [] then pySplitAux [] rest
      else String.mk acc.reverse :: pySplitAux [] rest
    else pySplitAux (c :: acc) rest

/-- Python `text.split()`: split on whitespace runs, discarding empty pieces. -/
def pySplit (text : String) : List String :=
  pySplitAux [] text.data

/-- Python `" ".join(ws)`. -/
def joinWords : List String → String
  | [] => ""
  | [w] => w
  | w :: ws => w ++ " " ++ joinWords ws

/-- The `while start < len(words)` loop of `_chunk_text`, fuel-indexed.
Each iteration emits `" ".join(words[start:start+chunkSize])` and advances
`start` by `chunkSize - overlap` (the claims assume `overlap < chunkSize`,
under which `Nat` subtraction agrees with Python). -/
def chunkLoop (chunkSize overlap : Nat) (words : List String) : Nat → Nat → List String
  | 0, _ => []
  | fuel + 1, start =>
    if start < words.length then
      joinWords ((words.drop start).take chunkSize) ::
        chunkLoop chunkSize overlap words fuel (start + chunkSize - overlap)
    else []

/-- `_chunk_text(text, chunk_size, overlap)`: if the body has at most
`chunk_size` words the result is `[text]`, otherwise the window loop runs.
`words.length + 1` fuel is enough for the loop (proved below). -/
def chunk_text (chunkSize overlap : Nat) (text : String) : List String :=
  let words := pySplit text
  if words.length ≤ chunkSize then [text]
  else chunkLoop chunkSize overlap words (words.length + 1) 0

/-- `CHUNK_SIZE = 150`. -/
def CHUNK_SIZE : Nat := 150

/-- `CHUNK_OVERLAP = 30`. -/
def CHUNK_OVERLAP : Nat := 30

/-- `_chunk_text` at its default parameters. -/
def chunk_text_default (text : String) : List String :=
  chunk_text CHUNK_SIZE CHUNK_OVERLAP text

/-- Ceiling division on `Nat`: `cdiv a b = ⌈a / b⌉` for `b > 0`. -/
def cdiv (a b : Nat) : Nat := (a + b - 1) / b

/-! ### Context fingerprint: `_source_hash`

`hashlib.md5(str(sorted ids).encode()).hexdigest()[:12]`, embedded as MD5 on
byte lists, with 32-bit arithmetic as `Nat` modulo `2 ^ 32`. -/

/-- `2 ^ 32`. -/
def M32 : Nat := 4294967296

/-- 32-bit left rotation (`x < 2 ^ 32`). -/
def rotl32 (x s : Nat) : Nat := ((x <<< s) % M32) + (x >>> (32 - s))

/-- The 64 MD5 round constants `floor(abs(sin(i + 1)) * 2 ^ 32)`. -/
def md5K : List Nat :=
  [0xd76aa478, 0xe8c7b756, 0x242070db, 0xc1bdceee,
   0xf57c0faf, 0x4787c62a, 0xa8304613, 0xfd469501,
   0x698098d8, 0x8b44f7af, 0xffff5bb1, 0x895cd7be,
   0x6b901122, 0xfd987193, 0xa679438e, 0x49b40821,
   0xf61e2562, 0xc040b340, 0x265e5a51, 0xe9b6c7aa,
   0xd62f105d, 0x02441453, 0xd8a1e681, 0xe7d3fbc8,
   0x21e1cde6, 0xc33707d6, 0xf4d50d87, 0x455a14ed,
   0xa9e3e905, 0xfcefa3f8, 0x676f02d9, 0x8d2a4c8a,
   0xfffa3942, 0x8771f681, 0x6d9d6122, 0xfde5380c,
   0xa4beea44, 0x4bdecfa9, 0xf6bb4b60, 0xbebfbc70,
   0x289b7ec6, 0xeaa127fa, 0xd4ef3085, 0x04881d05,
   0xd9d4d039, 0xe6db99e5, 0x1fa27cf8, 0xc4ac5665,
   0xf4292244, 0x432aff97, 0xab9423a7, 0xfc93a039,
   0x655b59c3, 0x8f0ccc92, 0xffeff47d, 0x85845dd1,
   0x6fa87e4f, 0xfe2ce6e0, 0xa3014314, 0x4e0811a1,
   0xf7537e82, 0xbd3af235, 0x2ad7d2bb, 0xeb86d391]

/-- The MD5 per-round rotation amounts. -/
def md5S : List Nat :=
  [7, 12, 17, 22, 7, 12, 17, 22, 7, 12, 17, 22, 7, 12, 17, 22,
   5, 9, 14, 20, 5, 9, 14, 20, 5, 9, 14, 20, 5, 9, 14, 20,
   4, 11, 16, 23, 4, 11, 16, 23, 4, 11, 16, 23, 4, 11, 16, 23,
   6, 10, 15, 21, 6, 10, 15, 21, 6, 10, 15, 21, 6, 10, 15, 21]

/-- One MD5 round `i` on state `(a, b, c, d)` with message words `m`. -/
def md5Round (m : List Nat) (st : Nat × Nat × Nat × Nat) (i : Nat) : Nat × Nat × Nat × Nat :=
  let a := st.1
  let b := st.2.1
  let c := st.2.2.1
  let d := st.2.2.2
  let mask := 4294967295
  let fg : Nat × Nat :=
    if i < 16 then ((b &&& c) ||| ((b ^^^ mask) &&& d), i)
    else if i < 32 then ((d &&& b) ||| ((d ^^^ mask) &&& c), (5 * i + 1) % 16)
    else if i < 48 then (b ^^^ c ^^^ d, (3 * i + 5) % 16)
    else (c ^^^ (b ||| (d ^^^ mask)), (7 * i) % 16)
  let tmp := (a + fg.1 + md5K.getD i 0 + m.getD fg.2 0) % M32
  let b2 := (b + rotl32 tmp (md5S.getD i 0)) % M32
  (d, b2, b, c)

/-- Process one 16-word block. -/
def md5Block (st : Nat × Nat × Nat × Nat) (m : List Nat) : Nat × Nat × Nat × Nat :=
  let r := (List.range 64).foldl (md5Round m) st
  ((st.1 + r.1) % M32, (st.2.1 + r.2.1) % M32,
   (st.2.2.1 + r.2.2.1) % M32, (st.2.2.2 + r.2.2.2) % M32)

/-- Little-endian 4-byte grouping of a byte list into 32-bit words. -/
def bytesToWords : List Nat → List Nat
  | b0 :: b1 :: b2 :: b3 :: rest =>
    (b0 + 256 * b1 + 65536 * b2 + 16777216 * b3) :: bytesToWords rest
  | _ => []

/-- MD5 padding: `0x80`, zeros to 56 mod 64, then the bit length as 64-bit LE. -/
def md5Pad (msg : List Nat) : List Nat :=
  msg ++ (128 :: List.replicate ((119 - msg.length % 64) % 64) 0)
    ++ (List.range 8).map (fun i => ((8 * msg.length) >>> (8 * i)) % 256)

/-- Fold `md5Block` over successive 16-word blocks. -/
def md5ProcessWords : Nat → Nat × Nat × Nat × Nat → List Nat → Nat × Nat × Nat × Nat
  | 0, st, _ => st
  | _ + 1, st, [] => st
  | fuel + 1, st, ws => md5ProcessWords fuel (md5Block st (ws.take 16)) (ws.drop 16)

/-- Lowercase hex digit. -/
def hexDigitChar (n : Nat) : Char :=
  if n < 10 then Char.ofNat (48 + n) else Char.ofNat (87 + n)

/-- Two lowercase hex digits of a byte. -/
def byteHex (b : Nat) : List Char := [hexDigitChar (b / 16), hexDigitChar (b % 16)]

/-- Little-endian hex rendering of a 32-bit word. -/
def wordHexLE (w : Nat) : List Char :=
  byteHex (w % 256) ++ byteHex ((w >>> 8) % 256)
    ++ byteHex ((w >>> 16) % 256) ++ byteHex ((w >>> 24) % 256)

/-- `hashlib.md5(bytes).hexdigest()`. -/
def md5Hex (bytes : List Nat) : String :=
  let ws := bytesToWords (md5Pad bytes)
  let r := md5ProcessWords (ws.length + 1)
    (0x67452301, 0xefcdab89, 0x98badcfe, 0x10325476) ws
  String.mk (wordHexLE r.1 ++ wordHexLE r.2.1 ++ wordHexLE r.2.2.1 ++ wordHexLE r.2.2.2)

/-- Bytes of an ASCII string (all `_source_hash` inputs are ASCII). -/
def strBytes (s : String) : List Nat := s.data.map Char.toNat

/-- Python `", ".join`. -/
def commaJoin : List String → String
  | [] => ""
  | [x] => x
  | x :: xs => x ++ ", " ++ commaJoin xs

/-- Python `str(ids)` for a list of ints, e.g. `"[1, 2, 3]"`. -/
def pyStrIntList (ids : List Int) : String := "[" ++ commaJoin (ids.map toString) ++ "]"

/-- One ingested source: id, title, body, optional processed body
(`app.models.Source`, the fields this core reads). -/
structure Source where
  id : Int
  title : String
  content : String
  processedContent : Option String
deriving DecidableEq

/-- `_source_hash(sources)`: md5 of `str(sorted([s.id for s in sources]))`,
truncated to the first 12 hex characters. Python `sorted` on ints is the
unique ascending reordering, embedded as `insertionSort`. -/
def source_hash (sources : List Source) : String :=
  String.mk ((md5Hex (strBytes (pyStrIntList
    (List.insertionSort (· ≤ ·) (sources.map Source.id))))).data.take 12)

/-! ### Indexer and Retriever: `EmbeddingService`

The per-process `_collections` table is the service state. Embedding vectors
never influence any claim (only the number of provider calls and the stored
documents/metadata do), so a collection stores its `source_hash` tag and its
chunk records, and each indexing/search operation also reports how many
embedding-provider calls it made. -/

/-- Metadata stored with each chunk (`source_id`, `source_title`, `chunk_index`). -/
structure ChunkMeta where
  sourceId : Int
  sourceTitle : String
  chunkIndex : Nat
deriving DecidableEq

/-- One stored chunk: ChromaDB id `f"{source.id}_{i}"`, text, metadata. -/
structure ChunkEntry where
  cid : String
  doc : String
  meta : ChunkMeta
deriving DecidableEq

/-- One per-context ChromaDB collection: `source_hash` metadata tag plus the
stored chunks in insertion order. -/
structure Collection where
  sourceHash : String
  entries : List ChunkEntry
deriving DecidableEq

/-- The `EmbeddingService._collections` dict: collection name → collection. -/
abbrev ServiceState := List (String × Collection)

/-- Dict update `self._collections[name] = c`. -/
def stInsert (st : ServiceState) (name : String) (c : Collection) : ServiceState :=
  (name, c) :: st.filter (fun kv => kv.1 ≠ name)

/-- Python `source.processed_content or source.content`. -/
def effContent (s : Source) : String :=
  match s.processedContent with
  | some p => if p = "" then s.content else p
  | none => s.content

/-- The chunk-preparation loop of `index_sources`: a source whose effective
content is empty (falsy) is skipped; otherwise its `_chunk_text` chunks are
recorded with ids `f"{source.id}_{i}"` and per-chunk metadata. -/
def prepChunks : List Source → List ChunkEntry
  | [] => []
  | s :: rest =>
    if effContent s = "" then prepChunks rest
    else
      ((chunk_text_default (effContent s)).mapIdx (fun i chunk =>
        ⟨toString s.id ++ "_" ++ toString i, chunk, ⟨s.id, s.title, i⟩⟩))
        ++ prepChunks rest

/-- Common body of `index_sources` / `index_project_sources`: if the stored
collection's `source_hash` matches, return immediately; otherwise replace the
collection with freshly prepared chunks, calling the embedding provider once
when there is at least one chunk and zero times when there is none.
Returns (new state, provider-call count, collection name). -/
def index_core (st : ServiceState) (collectionName : String) (sources : List Source) :
    ServiceState × Nat × String :=
  let h := source_hash sources
  let skip : Bool :=
    match st.lookup collectionName with
    | some existing => existing.sourceHash == h
    | none => false
  if skip then (st, 0, collectionName)
  else
    let entries := prepChunks sources
    if entries = [] then (stInsert st collectionName ⟨h, []⟩, 0, collectionName)
    else (stInsert st collectionName ⟨h, entries⟩, 1, collectionName)

/-- `EmbeddingService.index_sources(document_id, sources)`. -/
def index_sources (st : ServiceState) (documentId : Int) (sources : List Source) :
    ServiceState × Nat × String :=
  index_core st ("doc_" ++ toString documentId) sources

/-- `EmbeddingService.index_project_sources(project_id, sources)`. -/
def index_project_sources (st : ServiceState) (projectId : Int) (sources : List Source) :
    ServiceState × Nat × String :=
  index_core st ("project_" ++ toString projectId) sources

/-- `ChunkResult`: search result record. Scores are embedded as rationals
(`1.0` for a keyword match, `1 - distance` for a vector match). -/
structure ChunkResult where
  sourceId : Int
  sourceTitle : String
  content : String
  score : ℚ
deriving DecidableEq

/-- Python `s.lower()` (ASCII case folding, which is all the claims exercise). -/
def pyLower (s : String) : String := String.mk (s.data.map Char.toLower)

/-- Worker for `pyIn`: does `needle` occur contiguously in the second list? -/
def pyInAux (needle : List Char) : List Char → Bool
  | [] => needle.isEmpty
  | c :: rest => needle.isPrefixOf (c :: rest) || pyInAux needle rest

/-- Python substring test `needle in hay`. -/
def pyIn (needle hay : String) : Bool := pyInAux needle.data hay.data

/-- Keyword phase of `search`: scan stored chunks in order, keeping those
whose lowercased text contains the lowercased query, with score fixed at 1. -/
def keywordScan (query : String) : List ChunkEntry → List ChunkResult
  | [] => []
  | e :: rest =>
    if pyIn (pyLower query) (pyLower e.doc) then
      ⟨e.meta.sourceId, e.meta.sourceTitle, e.doc, 1⟩ :: keywordScan query rest
    else keywordScan query rest

/-- One nearest-neighbour candidate as `collection.query` returns it:
document, metadata, distance. -/
structure VecCand where
  doc : String
  meta : ChunkMeta
  dist : ℚ
deriving DecidableEq

/-- Vector-phase result formatting of `search`: keep a candidate exactly when
`1 - distance >= 0.5`, scored `1 - distance`. -/
def vectorResults : List VecCand → List ChunkResult
  | [] => []
  | c :: rest =>
    if (1 : ℚ) - c.dist ≥ 1 / 2 then
      ⟨c.meta.sourceId, c.meta.sourceTitle, c.doc, 1 - c.dist⟩ :: vectorResults rest
    else vectorResults rest

/-- Common body of `search` / `search_project`: missing collection gives `[]`;
otherwise the keyword phase short-circuits with the first `top_k` matches and
no provider call; otherwise the query is embedded (one provider call) and the
nearest-neighbour candidates `vecCands` — the answer the external vector index
gives for the query embedding — are filtered by the relevance floor.
Returns the result list and the provider-call count. -/
def search_core (st : ServiceState) (collectionName : String) (query : String)
    (topK : Nat) (vecCands : List VecCand) : List ChunkResult × Nat :=
  match st.lookup collectionName with
  | none => ([], 0)
  | some coll =>
    let km := keywordScan query coll.entries
    if km ≠ [] then (km.take topK, 0)
    else (vectorResults vecCands, 1)

/-- `EmbeddingService.search(document_id, query, top_k)`. -/
def search (st : ServiceState) (documentId : Int) (query : String)
    (topK : Nat) (vecCands : List VecCand) : List ChunkResult × Nat :=
  search_core st ("doc_" ++ toString documentId) query topK vecCands

/-- `EmbeddingService.search_project(project_id, query, top_k)`. -/
def search_project (st : ServiceState) (projectId : Int) (query : String)
    (topK : Nat) (vecCands : List VecCand) : List ChunkResult × Nat :=
  search_core st ("project_" ++ toString projectId) query topK vecCands

/-! ### Conversation orchestrator: `BaseChatService._agentic_loop`

The loop's JSON traffic (`json.loads` on tool arguments, `json.dumps` in
event frames) is embedded over a JSON value type whose numbers are integers —
the payloads the loop itself builds contain only strings, arrays and
objects. -/

/-- JSON values for the tool-call protocol. -/
inductive PyJson where
  | null : PyJson
  | bool : Bool → PyJson
  | num : Int → PyJson
  | str : String → PyJson
  | arr : List PyJson → PyJson
  | obj : List (String × PyJson) → PyJson

/-- `{` (kept out of string literals). -/
def lbrace : Char := Char.ofNat 123

/-- `}`. -/
def rbrace : Char := Char.ofNat 125

/-- Four lowercase hex digits of a 16-bit value (for `\uXXXX`). -/
def u16Hex (n : Nat) : List Char :=
  [hexDigitChar ((n / 4096) % 16), hexDigitChar ((n / 256) % 16),
   hexDigitChar ((n / 16) % 16), hexDigitChar (n % 16)]

/-- `json.dumps` escaping of one character (`ensure_ascii=True`: quote,
backslash, control characters, and non-ASCII code points — astral ones as
surrogate pairs). -/
def jsonEscChar (c : Char) : List Char :=
  if c = '"' then ['\\', '"']
  else if c = '\\' then ['\\', '\\']
  else if c = '\n' then ['\\', 'n']
  else if c = '\r' then ['\\', 'r']
  else if c = '\t' then ['\\', 't']
  else if c.toNat = 8 then ['\\', 'b']
  else if c.toNat = 12 then ['\\', 'f']
  else if c.toNat < 32 then '\\' :: 'u' :: u16Hex c.toNat
  else if c.toNat < 127 then [c]
  else if c.toNat < 65536 then '\\' :: 'u' :: u16Hex c.toNat
  else
    ('\\' :: 'u' :: u16Hex (55296 + (c.toNat - 65536) / 1024))
      ++ ('\\' :: 'u' :: u16Hex (56320 + (c.toNat - 65536) % 1024))

/-- `json.dumps` of a string. -/
def pyJsonStr (s : String) : String :=
  String.mk ('"' :: (s.data.map jsonEscChar).flatten ++ ['"'])

mutual

/-- `json.dumps` with the default `", "` / `": "` separators. -/
def pyDumps : PyJson → String
  | .null => "null"
  | .bool true => "true"
  | .bool false => "false"
  | .num n => toString n
  | .str s => pyJsonStr s
  | .arr xs => "[" ++ pyDumpsList xs ++ "]"
  | .obj kvs => String.mk [lbrace] ++ pyDumpsObj kvs ++ String.mk [rbrace]

/-- Comma-joined array elements. -/
def pyDumpsList : List PyJson → String
  | [] => ""
  | [x] => pyDumps x
  | x :: xs => pyDumps x ++ ", " ++ pyDumpsList xs

/-- Comma-joined object members. -/
def pyDumpsObj : List (String × PyJson) → String
  | [] => ""
  | [kv] => pyJsonStr kv.1 ++ ": " ++ pyDumps kv.2
  | kv :: kvs => pyJsonStr kv.1 ++ ": " ++ pyDumps kv.2 ++ ", " ++ pyDumpsObj kvs

end

/-- JSON whitespace. -/
def jsonWS (c : Char) : Bool := c = ' ' || c = '\t' || c = '\n' || c = '\r'

/-- Skip JSON whitespace. -/
def skipJsonWS : List Char → List Char
  | [] => []
  | c :: rest => if jsonWS c then skipJsonWS rest else c :: rest

/-- Hex digit value. -/
def hexVal (c : Char) : Option Nat :=
  if '0' ≤ c && c ≤ '9' then some (c.toNat - 48)
  else if 'a' ≤ c && c ≤ 'f' then some (c.toNat - 87)
  else if 'A' ≤ c && c ≤ 'F' then some (c.toNat - 55)
  else none

/-- Parse a JSON string body after the opening quote; returns the decoded
characters and the input after the closing quote. -/
def parseJStr : Nat → List Char → Option (List Char × List Char)
  | 0, _ => none
  | _ + 1, [] => none
  | fuel + 1, c :: rest =>
    if c = '"' then some ([], rest)
    else if c = '\\' then
      match rest with
      | 'u' :: h1 :: h2 :: h3 :: h4 :: rest2 =>
        match hexVal h1, hexVal h2, hexVal h3, hexVal h4 with
        | some v1, some v2, some v3, some v4 =>
          match parseJStr fuel rest2 with
          | some (cs, rem) =>
            some (Char.ofNat (((v1 * 16 + v2) * 16 + v3) * 16 + v4) :: cs, rem)
          | none => none
        | _, _, _, _ => none
      | e :: rest2 =>
        let dec : Option Char :=
          if e = '"' then some '"'
          else if e = '\\' then some '\\'
          else if e = '/' then some '/'
          else if e = 'b' then some (Char.ofNat 8)
          else if e = 'f' then some (Char.ofNat 12)
          else if e = 'n' then some '\n'
          else if e = 'r' then some '\r'
          else if e = 't' then some '\t'
          else none
        match dec with
        | some d =>
          match parseJStr fuel rest2 with
          | some (cs, rem) => some (d :: cs, rem)
          | none => none
        | none => none
      | [] => none
    else if c.toNat < 32 then none
    else
      match parseJStr fuel rest with
      | some (cs, rem) => some (c :: cs, rem)
      | none => none

/-- Digits to `Nat`. -/
def digitsToNat (ds : List Char) : Nat :=
  ds.foldl (fun a c => a * 10 + (c.toNat - 48)) 0

mutual

/-- `json.loads` value parser (fuel-based recursive descent). Integer numbers
only: a fractional or exponent part is treated as a decode failure, which the
loop's `except` branch then handles — the tool-call payloads relevant here
are strings. -/
def parseJVal : Nat → List Char → Option (PyJson × List Char)
  | 0, _ => none
  | fuel + 1, cs0 =>
    match skipJsonWS cs0 with
    | [] => none
    | c :: rest =>
      if c = '"' then
        match parseJStr fuel rest with
        | some (body, rem) => some (.str (String.mk body), rem)
        | none => none
      else if c = '[' then
        match skipJsonWS rest with
        | ']' :: rem => some (.arr [], rem)
        | cs2 =>
          match parseJArrItems fuel cs2 with
          | some (vs, rem) => some (.arr vs, rem)
          | none => none
      else if c = lbrace then
        match skipJsonWS rest with
        | d :: rem =>
          if d = rbrace then some (.obj [], rem)
          else
            match parseJObjItems fuel (d :: rem) with
            | some (kvs, rem2) => some (.obj kvs, rem2)
            | none => none
        | [] => none
      else if List.isPrefixOf "true".data (c :: rest) then
        some (.bool true, (c :: rest).drop 4)
      else if List.isPrefixOf "false".data (c :: rest) then
        some (.bool false, (c :: rest).drop 5)
      else if List.isPrefixOf "null".data (c :: rest) then
        some (.null, (c :: rest).drop 4)
      else if c = '-' || c.isDigit then
        let body := if c = '-' then rest else c :: rest
        match body with
        | d :: _ =>
          if d.isDigit then
            let p := body.span (fun x => x.isDigit)
            match p.2 with
            | '.' :: _ => none
            | 'e' :: _ => none
            | 'E' :: _ => none
            | _ =>
              some (.num (if c = '-' then -(digitsToNat p.1 : Int) else (digitsToNat p.1 : Int)),
                p.2)
          else none
        | [] => none
      else none

/-- Array items after at least one element is required. -/
def parseJArrItems : Nat → List Char → Option (List PyJson × List Char)
  | 0, _ => none
  | fuel + 1, cs =>
    match parseJVal fuel cs with
    | none => none
    | some (v, rem) =>
      match skipJsonWS rem with
      | ',' :: rem2 =>
        match parseJArrItems fuel rem2 with
        | some (vs, r) => some (v :: vs, r)
        | none => none
      | ']' :: rem2 => some ([v], rem2)
      | _ => none

/-- Object members after at least one member is required. -/
def parseJObjItems : Nat → List Char → Option (List (String × PyJson) × List Char)
  | 0, _ => none
  | fuel + 1, cs =>
    match skipJsonWS cs with
    | '"' :: rest =>
      match parseJStr fuel rest with
      | some (key, rem) =>
        match skipJsonWS rem with
        | ':' :: rem2 =>
          match parseJVal fuel rem2 with
          | some (v, rem3) =>
            match skipJsonWS rem3 with
            | ',' :: rem4 =>
              match parseJObjItems fuel rem4 with
              | some (kvs, r) => some ((String.mk key, v) :: kvs, r)
              | none => none
            | d :: rem4 =>
              if d = rbrace then some ([(String.mk key, v)], rem4) else none
            | [] => none
          | none => none
        | _ => none
      | none => none
    | _ => none

end

/-- `json.loads`: parse one value, require only whitespace after it. -/
def pyJsonLoads (s : String) : Option PyJson :=
  match parseJVal (s.data.length + 16) s.data with
  | some (v, rem) => if (skipJsonWS rem).isEmpty then some v else none
  | none => none

/-- Python `dict` built by `json.loads`: the last duplicate key wins. -/
def lookupKey (k : String) : List (String × PyJson) → Option PyJson
  | [] => none
  | kv :: rest =>
    match lookupKey k rest with
    | some v => some v
    | none => if kv.1 = k then some kv.2 else none

/-- One tool call as the model returns it (`tool_call.id`,
`tool_call.function.name`, `tool_call.function.arguments`). -/
structure ToolCall where
  id : String
  name : String
  arguments : String

/-- One segment of a structured assistant content list: an object with
`.type`/`.text` attributes, or a plain string. -/
inductive ContentPart where
  | typed : String → String → ContentPart
  | plain : String → ContentPart

/-- Assistant message content: a single string or a list of typed segments. -/
inductive MsgContent where
  | str : String → MsgContent
  | parts : List ContentPart → MsgContent

/-- The model's reply message: tool-call list (`None` behaves exactly like the
empty list under the `if message.tool_calls:` truthiness test) and optional
content. -/
structure AssistantMsg where
  toolCalls : List ToolCall
  content : Option MsgContent

/-- One entry of the model-facing message list. -/
inductive Msg where
  | system : String → Msg
  | user : String → Msg
  | assistantText : String → Msg
  | assistantToolCall : List ToolCall → Msg
  | tool : String → String → String → Msg

/-- `args = json.loads(arguments); query = args.get("query", "")`, with the
`except json.JSONDecodeError: query = arguments` fallback. (On valid
non-object JSON, or an object whose `"query"` value is not a string, the
source would fail later with an attribute/type error; a well-formed
tool-calling model never produces those, and they are mapped to the empty
query here.) -/
def extractQuery (arguments : String) : String :=
  match pyJsonLoads arguments with
  | none => arguments
  | some (.obj kvs) =>
    match lookupKey "query" kvs with
    | some (.str q) => q
    | some _ => ""
    | none => ""
  | some _ => ""

/-- The fixed interruption fragment. -/
def INTERRUPT_MSG : String := "[Réponse interrompue - trop d'itérations]"

/-- `max_iterations = 3`. -/
def MAX_ITERATIONS : Nat := 3

/-- The `for tool_call in message.tool_calls` body: for each call named
`search_sources`, yield the `search_start` event, run the search, yield the
`search_complete` event, and append the assistant tool-call message and the
tool result to the message list; calls with other names are skipped. Returns
the yielded fragments and the extended message list. -/
def processToolCalls (searchFn : String → String × List String × List PyJson) :
    List ToolCall → List Msg → List String × List Msg
  | [], msgs => ([], msgs)
  | tc :: rest, msgs =>
    if tc.name = "search_sources" then
      let query := extractQuery tc.arguments
      let sr := searchFn query
      let e1 := "[EVENT:search_start:" ++ pyDumps (.obj [("query", .str query)]) ++ "]"
      let e2 := "[EVENT:search_complete:"
        ++ pyDumps (.obj [("sources", .arr (sr.2.1.map PyJson.str)),
            ("chunks", .arr sr.2.2)]) ++ "]"
      let msgs2 := msgs ++ [.assistantToolCall [tc], .tool "search_sources" sr.1 tc.id]
      let pr := processToolCalls searchFn rest msgs2
      (e1 :: e2 :: pr.1, pr.2)
    else processToolCalls searchFn rest msgs

/-- The `parts` accumulation of the content-flattening branch: text-typed
segments keep their `.text`, plain strings are kept, others are skipped. -/
def flattenParts : List ContentPart → List String
  | [] => []
  | .typed t x :: rest => if t = "text" then x :: flattenParts rest else flattenParts rest
  | .plain s :: rest => s :: flattenParts rest

/-- The final content string of the no-tool-call branch
(`"".join(parts)` in the list case). -/
def contentText : MsgContent → String
  | .str s => s
  | .parts ps => String.join (flattenParts ps)

/-- Python truthiness of `message.content`. -/
def contentTruthy : Option MsgContent → Bool
  | none => false
  | some (.str s) => !(s == "")
  | some (.parts ps) => !ps.isEmpty

/-- `_agentic_loop`, with fuel = remaining iterations of
`range(max_iterations)`. `model` stands for `client.chat.complete_async`
(`none` covers both a raised exception and an empty `choices`, which `return`
without yielding); `searchFn` stands for the abstract `self._search_sources`.
Returns the yielded fragments and the number of model calls made. -/
def agenticStep (model : List Msg → Option AssistantMsg)
    (searchFn : String → String × List String × List PyJson) :
    Nat → List Msg → List String × Nat
  | 0, _ => ([INTERRUPT_MSG], 0)
  | fuel + 1, msgs =>
    match model msgs with
    | none => ([], 1)
    | some m =>
      if m.toolCalls.isEmpty then
        match m.content with
        | none => ([], 1)
        | some c => if contentTruthy (some c) then ([contentText c], 1) else ([], 1)
      else
        let pr := processToolCalls searchFn m.toolCalls msgs
        let rest := agenticStep model searchFn fuel pr.2
        (pr.1 ++ rest.1, rest.2 + 1)

/-- `_agentic_loop(context_id, messages)` with `max_iterations = 3`. -/
def agenticLoop (model : List Msg → Option AssistantMsg)
    (searchFn : String → String × List String × List PyJson)
    (msgs : List Msg) : List String × Nat :=
  agenticStep model searchFn MAX_ITERATIONS msgs

/-- A bracket-delimited event frame `[EVENT:<name>:<payload>]`. -/
def isEventFrame (f : String) : Prop :=
  ∃ nm pl, f = "[EVENT:" ++ nm ++ ":" ++ pl ++ "]"

/-! ### `clean_response`: Python `re.sub` of the event-frame pattern

`re.sub(r'\[EVENT:[^\]]*(?:\[[^\]]*\])*[^\]]*\]', '', response)`, embedded
with a backtracking matcher that has Python `re`'s leftmost-first semantics:
greedy quantifiers try the longest continuation first, and the first overall
success wins. -/

/-- Regular-expression fragments sufficient for the event-frame pattern. -/
inductive RE where
  | lit : List Char → RE
  | one : (Char → Bool) → RE
  | seq : RE → RE → RE
  | star : RE → RE

/-- CPS backtracking matcher. `star` is greedy (iterate first, fall back to
the continuation) and only iterates on progress, as `re` does. The fuel
bounds recursion depth; `reFuel` below is ample for the pattern at hand. -/
def reMatch : Nat → RE → List Char → (List Char → Option (List Char)) → Option (List Char)
  | 0, _, _, _ => none
  | _ + 1, .lit p, cs, k => if p.isPrefixOf cs then k (cs.drop p.length) else none
  | _ + 1, .one p, cs, k =>
    match cs with
    | [] => none
    | c :: rest => if p c then k rest else none
  | fuel + 1, .seq r1 r2, cs, k => reMatch fuel r1 cs (fun rest => reMatch fuel r2 rest k)
  | fuel + 1, .star r, cs, k =>
    (reMatch fuel r cs (fun rest =>
      if rest.length < cs.length then reMatch fuel (.star r) rest k else none)) <|> k cs

/-- Ample fuel for `eventRE` on an input of this length. -/
def reFuel (cs : List Char) : Nat := 4 * cs.length + 64

/-- Try a match starting exactly at the head of `cs`; returns the suffix
after the leftmost-first match. -/
def reTry (re : RE) (cs : List Char) : Option (List Char) :=
  reMatch (reFuel cs) re cs some

/-- `re.sub(pattern, '', s)`: scan left to right, removing each leftmost
non-overlapping match (this pattern never matches the empty string). -/
def reSubAll (re : RE) : Nat → List Char → List Char
  | 0, cs => cs
  | _ + 1, [] => []
  | fuel + 1, c :: rest =>
    match reTry re (c :: rest) with
    | some remaining =>
      if remaining.length < rest.length + 1 then reSubAll re fuel remaining
      else c :: reSubAll re fuel rest
    | none => c :: reSubAll re fuel rest

/-- `[^\]]`. -/
def notRBracket : RE := .one (fun c => c ≠ ']')

/-- The pattern `\[EVENT:[^\]]*(?:\[[^\]]*\])*[^\]]*\]`. -/
def eventRE : RE :=
  .seq (.lit "[EVENT:".data)
    (.seq (.star notRBracket)
      (.seq (.star (.seq (.lit ['[']) (.seq (.star notRBracket) (.lit [']']))))
        (.seq (.star notRBracket) (.lit [']']))))

/-- `BaseChatService.clean_response(response)`. -/
def clean_response (response : String) : String :=
  String.mk (reSubAll eventRE (response.data.length + 1) response.data)

theorem cdiv_rec {m b : Nat} (hm : 0 < m) (hb : 0 < b) :
    cdiv m b = cdiv (m - b) b + 1 := by
  unfold cdiv
  rcases Nat.le_total m b with h | h
  · have h1 : m - b = 0 := by omega
    rw [h1]
    have h2 : m + b - 1 = (m - 1) + b := by omega
    rw [h2, Nat.add_div_right _ hb]
    have h3 : (m - 1) / b = 0 := Nat.div_eq_of_lt (by omega)
    have h4 : (0 + b - 1) / b = 0 := Nat.div_eq_of_lt (by omega)
    omega
  · have h2 : m + b - 1 = ((m - b) + b - 1) + b := by omega
    rw [h2, Nat.add_div_right _ hb]

theorem cdiv_le_iff {a b i : Nat} (hb : 0 < b) : cdiv a b ≤ i ↔ a ≤ i * b := by
  unfold cdiv
  have hcomm : i * b = b * i := Nat.mul_comm i b
  rw [Nat.div_le_iff_le_mul_add_pred hb, hcomm]
  generalize b * i = t
  omega

theorem chunkLoop_closed (W O : Nat) (words : List String) (hWO : O < W) :
    ∀ fuel start, words.length ≤ start + fuel * (W - O) →
      chunkLoop W O words fuel start =
        (List.range (cdiv (words.length - start) (W - O))).map
          (fun i => joinWords ((words.drop (start + i * (W - O))).take W)) := by
  intro fuel
  induction fuel with
  | zero =>
    intro start h
    simp only [chunkLoop]
    have h0 : words.length - start = 0 := by
      simp only [Nat.zero_mul, Nat.add_zero] at h
      omega
    rw [h0]
    have hc : cdiv 0 (W - O) = 0 := by
      unfold cdiv
      exact Nat.div_eq_of_lt (by omega)
    rw [hc]
    rfl
  | succ n ih =>
    intro start h
    have hstep : 0 < W - O := by omega
    have harith : start + W - O = start + (W - O) := by omega
    simp only [chunkLoop]
    by_cases hs : start < words.length
    · rw [if_pos hs, harith]
      have hmul : (n + 1) * (W - O) = n * (W - O) + (W - O) := by
        rw [Nat.add_mul, Nat.one_mul]
      have hfuel : words.length ≤ (start + (W - O)) + n * (W - O) := by omega
      rw [ih (start + (W - O)) hfuel]
      have hk : cdiv (words.length - start) (W - O)
          = cdiv (words.length - (start + (W - O))) (W - O) + 1 := by
        have h1 := cdiv_rec (m := words.length - start) (b := W - O) (by omega) hstep
        have h2 : words.length - start - (W - O) = words.length - (start + (W - O)) := by
          omega
        rw [h1, h2]
      rw [hk, List.range_succ_eq_map, List.map_cons, List.map_map]
      congr 1
      · simp
      · apply List.map_congr_left
        intro i hi
        simp only [Function.comp_apply]
        have he : (start + (W - O)) + i * (W - O) = start + (i + 1) * (W - O) := by
          have hm : (i + 1) * (W - O) = i * (W - O) + (W - O) := by
            rw [Nat.add_mul, Nat.one_mul]
          omega
        rw [he]
    · rw [if_neg hs]
      have h0 : words.length - start = 0 := by omega
      rw [h0]
      have hc : cdiv 0 (W - O) = 0 := by
        unfold cdiv
        exact Nat.div_eq_of_lt (by omega)
      rw [hc]
      rfl

theorem pySplitAux_data_ne_nil (cs : List Char) :
    ∀ acc w, w ∈ pySplitAux acc cs → w.data ≠ [] := by
  induction cs with
  | nil =>
    intro acc w hw
    simp only [pySplitAux] at hw
    by_cases ha : acc = []
    · rw [if_pos ha] at hw
      exact absurd hw (List.not_mem_nil w)
    · rw [if_neg ha] at hw
      have hw' : w = String.mk acc.reverse := List.mem_singleton.mp hw
      subst hw'
      simpa using ha
  | cons c rest ih =>
    intro acc w hw
    simp only [pySplitAux] at hw
    by_cases hc : pyIsSpace c
    · rw [if_pos hc] at hw
      by_cases ha : acc = []
      · rw [if_pos ha] at hw
        exact ih [] w hw
      · rw [if_neg ha] at hw
        rcases List.mem_cons.mp hw with hw' | hw'
        · subst hw'
          simpa using ha
        · exact ih [] w hw'
    · rw [if_neg hc] at hw
      exact ih (c :: acc) w hw

theorem pySplit_data_ne_nil (text : String) :
    ∀ w ∈ pySplit text, w.data ≠ [] :=
  fun w hw => pySplitAux_data_ne_nil text.data [] w hw

theorem joinWords_length_ge (w : String) (ws : List String) :
    w.length ≤ (joinWords (w :: ws)).length := by
  cases ws with
  | nil => simp [joinWords]
  | cons x xs =>
    have hj : joinWords (w :: x :: xs) = w ++ " " ++ joinWords (x :: xs) := rfl
    rw [hj]
    simp only [String.length_append]
    omega

theorem joinWords_ne_empty_of_head (w : String) (ws : List String) (hw : w.data ≠ []) :
    joinWords (w :: ws) ≠ "" := by
  intro hcon
  have h1 : 0 < w.length := by
    cases hd : w.data with
    | nil => exact absurd hd hw
    | cons a l =>
      have hlen : w.length = w.data.length := rfl
      rw [hlen, hd]
      simp
  have h2 := joinWords_length_ge w ws
  rw [hcon] at h2
  have h3 : ("" : String).length = 0 := rfl
  omega

/-- C1 (amended, proved): with `N > W` words and `O < W`, `_chunk_text`
produces exactly `⌈N / (W - O)⌉` chunks; chunk `i` joins the words from
position `i * (W - O)` to `i * (W - O) + W` (so chunk `i+1` starts exactly
`W - O` words after chunk `i`); every chunk is non-empty; and the last chunk
window reaches the final word of the body. -/
theorem chunk_text_correct (W O : Nat) (text : String) (hWO : O < W)
    (hN : W < (pySplit text).length) :
    chunk_text W O text =
      (List.range (cdiv (pySplit text).length (W - O))).map
        (fun i => joinWords (((pySplit text).drop (i * (W - O))).take W)) ∧
    (chunk_text W O text).length = cdiv (pySplit text).length (W - O) ∧
    (∀ c ∈ chunk_text W O text, c ≠ "") ∧
    (cdiv (pySplit text).length (W - O) - 1) * (W - O) + W ≥ (pySplit text).length := by
  have hstep : 0 < W - O := by omega
  have hchunk : chunk_text W O text
      = chunkLoop W O (pySplit text) ((pySplit text).length + 1) 0 := by
    unfold chunk_text
    rw [if_neg (by omega)]
  have hfuel : (pySplit text).length ≤ 0 + ((pySplit text).length + 1) * (W - O) := by
    have hm : (pySplit text).length + 1 ≤ ((pySplit text).length + 1) * (W - O) :=
      Nat.le_mul_of_pos_right _ hstep
    omega
  have hclosed := chunkLoop_closed W O (pySplit text) hWO ((pySplit text).length + 1) 0 hfuel
  simp only [Nat.sub_zero, Nat.zero_add] at hclosed
  rw [hchunk, hclosed]
  refine ⟨rfl, ?_, ?_, ?_⟩
  · simp
  · intro c hc
    rcases List.mem_map.mp hc with ⟨i, hi, hci⟩
    rw [List.mem_range] at hi
    have hik : i * (W - O) < (pySplit text).length := by
      by_contra hge
      push_neg at hge
      have hle : cdiv (pySplit text).length (W - O) ≤ i := (cdiv_le_iff hstep).mpr hge
      omega
    obtain ⟨h, t, hht⟩ : ∃ h t, ((pySplit text).drop (i * (W - O))).take W = h :: t := by
      have hlen : 0 < (((pySplit text).drop (i * (W - O))).take W).length := by
        rw [List.length_take, List.length_drop]
        omega
      exact List.exists_cons_of_ne_nil (List.ne_nil_of_length_pos hlen)
    rw [hht] at hci
    have hmem : h ∈ pySplit text := by
      have h1 : h ∈ ((pySplit text).drop (i * (W - O))).take W := by
        rw [hht]
        exact List.mem_cons_self _ _
      exact List.drop_subset _ _ (List.take_subset _ _ h1)
    have hne := pySplit_data_ne_nil text h hmem
    rw [← hci]
    exact joinWords_ne_empty_of_head h t hne
  · have hk1 : 1 ≤ cdiv (pySplit text).length (W - O) := by
      by_contra hlt
      push_neg at hlt
      have h0 : cdiv (pySplit text).length (W - O) ≤ 0 := by omega
      have := (cdiv_le_iff hstep).mp h0
      omega
    have hkk := (cdiv_le_iff hstep).mp (Nat.le_refl (cdiv (pySplit text).length (W - O)))
    have hge : W - O ≤ cdiv (pySplit text).length (W - O) * (W - O) := by
      calc W - O = 1 * (W - O) := (Nat.one_mul _).symm
      _ ≤ cdiv (pySplit text).length (W - O) * (W - O) := Nat.mul_le_mul_right _ hk1
    have hsm : (cdiv (pySplit text).length (W - O) - 1) * (W - O)
        = cdiv (pySplit text).length (W - O) * (W - O) - 1 * (W - O) :=
      Nat.sub_mul _ _ _
    rw [hsm, Nat.one_mul]
    omega

/-- A 241-word body: `"w w w ... w"`. -/
def exText241 : String := joinWords (List.replicate 241 "w")

set_option maxRecDepth 8000 in
/-- C1: the claimed chunk-count formula `ceil((N - O) / (W - O))` fails on the
code at `N = 241` with the default `W = 150`, `O = 30`: `_chunk_text` produces
3 chunks while the formula predicts 2 (the loop keeps running while
`start < N` even after a window already reached the final word). -/
theorem chunk_count_formula_counterexample :
    CHUNK_SIZE < (pySplit exText241).length ∧
    (pySplit exText241).length = 241 ∧
    (chunk_text_default exText241).length = 3 ∧
    cdiv ((pySplit exText241).length - CHUNK_OVERLAP) (CHUNK_SIZE - CHUNK_OVERLAP) = 2 := by
  refine ⟨by decide, by decide, by decide, by decide⟩

/-- Python `sorted` (here `insertionSort`) is permutation-invariant on int lists. -/
theorem insertionSort_eq_of_perm {l1 l2 : List Int} (h : l1.Perm l2) :
    List.insertionSort (· ≤ ·) l1 = List.insertionSort (· ≤ ·) l2 :=
  List.eq_of_perm_of_sorted
    (((List.perm_insertionSort _ _).trans h).trans (List.perm_insertionSort _ _).symm)
    (List.sorted_insertionSort _ _) (List.sorted_insertionSort _ _)

/-- C8: read literally over *sets* of ids the claim fails: the source lists
with id lists `[1, 1, 2]` and `[1, 2]` have equal id sets, but `_source_hash`
hashes `str(sorted(ids))`, and `"[1, 1, 2]"` and `"[1, 2]"` digest
differently. -/
theorem source_hash_set_counterexample :
    (∀ x : Int,
      x ∈ ([⟨1, "a", "", none⟩, ⟨1, "b", "", none⟩, ⟨2, "c", "", none⟩] : List Source).map Source.id
        ↔ x ∈ ([⟨1, "a", "", none⟩, ⟨2, "c", "", none⟩] : List Source).map Source.id) ∧
    source_hash [⟨1, "a", "", none⟩, ⟨1, "b", "", none⟩, ⟨2, "c", "", none⟩]
      ≠ source_hash [⟨1, "a", "", none⟩, ⟨2, "c", "", none⟩] := by
  constructor
  · intro x
    simp only [List.map_cons, List.map_nil, List.mem_cons, List.not_mem_nil, or_false]
    tauto
  · decide

/-- C8 (amended, proved): `_source_hash` is deterministic and
order-independent — equal id lists up to reordering (equal multisets) give
equal digests — and the digests of the id sets `{1, 2}` and `{1, 2, 3}`
differ. -/
theorem source_hash_correct :
    (∀ s1 s2 : List Source, (s1.map Source.id).Perm (s2.map Source.id) →
      source_hash s1 = source_hash s2) ∧
    source_hash [⟨1, "a", "", none⟩, ⟨2, "b", "", none⟩]
      ≠ source_hash [⟨1, "a", "", none⟩, ⟨2, "b", "", none⟩, ⟨3, "c", "", none⟩] := by
  constructor
  · intro s1 s2 h
    unfold source_hash
    rw [insertionSort_eq_of_perm h]
  · decide

/-- Concrete instance of `source_hash_correct`: reversing a two-source list
(and changing every non-id field) leaves the fingerprint unchanged. -/
theorem source_hash_correct_witness :
    source_hash [⟨2, "b", "x", none⟩, ⟨1, "a", "y", none⟩]
      = source_hash [⟨1, "c", "z", some "w"⟩, ⟨2, "d", "u", some "v"⟩] :=
  source_hash_correct.1 _ _ (by decide)

/-- Concrete instance of `chunk_text_correct` at `W = 5`, `O = 2` on a 7-word
body: 3 chunks (`⌈7 / 3⌉`), matching a direct evaluation. -/
theorem chunk_text_correct_witness :
    2 < 5 ∧ 5 < (pySplit "a b c d e f g").length ∧
    (chunk_text 5 2 "a b c d e f g").length = cdiv (pySplit "a b c d e f g").length (5 - 2) :=
  ⟨by decide, by decide, (chunk_text_correct 5 2 "a b c d e f g" (by decide) (by decide)).2.1⟩

/-- C6: the first half of the claim fails on the code: `_chunk_text` never
returns zero chunks — an empty or whitespace-only body has `0 <= 150` words,
so the `len(words) <= chunk_size` branch returns `[text]`, one chunk equal to
the body itself. -/
theorem chunker_empty_counterexample :
    chunk_text_default "" = [""] ∧ chunk_text_default " " = [" "] ∧
    chunk_text_default "" ≠ [] := by decide

/-- C6 (amended, proved): an empty or whitespace-only body yields exactly one
chunk, the body itself; during indexing it is the *empty effective content*
check (not a zero-chunk check) that skips a source, and such a source
contributes nothing while the rest of the run proceeds unchanged. -/
theorem chunker_empty_behavior :
    (∀ text : String, pySplit text = [] → chunk_text_default text = [text]) ∧
    (∀ (s : Source) (rest : List Source), effContent s = "" →
      prepChunks (s :: rest) = prepChunks rest) := by
  constructor
  · intro text h
    simp [chunk_text_default, chunk_text, h]
  · intro s rest h
    simp [prepChunks, h]

/-- Concrete instance of `chunker_empty_behavior`: a whitespace-only body
chunks to itself, and a source with empty content drops out of indexing. -/
theorem chunker_empty_behavior_witness :
    pySplit " " = [] ∧ chunk_text_default " " = [" "] ∧
    effContent ⟨1, "t", "", none⟩ = "" ∧
    prepChunks [⟨1, "t", "", none⟩] = prepChunks [] :=
  ⟨by decide, chunker_empty_behavior.1 " " (by decide), by decide,
   chunker_empty_behavior.2 ⟨1, "t", "", none⟩ [] (by decide)⟩

/-- Dict update then lookup of the same key. -/
theorem stInsert_lookup (st : ServiceState) (n : String) (c : Collection) :
    (stInsert st n c).lookup n = some c := by
  simp [stInsert, List.lookup]

/-- C2: "calls the embedding provider exactly once" fails when every source
has empty content: indexing the same one-source list (id 1, empty body) twice
makes zero embedding calls in total, not one — the chunk list is empty, so
the first call stores an empty collection without embedding and the second
call hits the fingerprint short-circuit. -/
theorem index_twice_counterexample :
    (index_sources [] 7 [⟨1, "t", "", none⟩]).2.1 = 0 ∧
    (index_sources (index_sources [] 7 [⟨1, "t", "", none⟩]).1 7 [⟨1, "t", "", none⟩]).2.1
      = 0 := by
  decide

/-- C2 (amended, proved): starting from a state with no collection for the
document, with sources producing at least one chunk: the first `index_sources`
call embeds exactly once; a second call whose source-id list is a permutation
of the first embeds zero times and leaves the state unchanged; a call whose
source list has a different fingerprint (as any changed id set has) discards
the stored collection and re-embeds the full chunk list of the new sources in
one provider call. -/
theorem index_sources_idempotent (st : ServiceState) (docId : Int)
    (s1 s2 s3 : List Source)
    (h0 : st.lookup ("doc_" ++ toString docId) = none)
    (hperm : (s1.map Source.id).Perm (s2.map Source.id))
    (hch : prepChunks s1 ≠ [])
    (hdiff : source_hash s1 ≠ source_hash s3)
    (hch3 : prepChunks s3 ≠ []) :
    (index_sources st docId s1).2.1 = 1 ∧
    (index_sources (index_sources st docId s1).1 docId s2).2.1 = 0 ∧
    (index_sources (index_sources st docId s1).1 docId s2).1 = (index_sources st docId s1).1 ∧
    (index_sources (index_sources st docId s1).1 docId s3).2.1 = 1 ∧
    (index_sources (index_sources st docId s1).1 docId s3).1.lookup ("doc_" ++ toString docId)
      = some ⟨source_hash s3, prepChunks s3⟩ := by
  have hs21 : source_hash s2 = source_hash s1 := by
    unfold source_hash
    rw [insertionSort_eq_of_perm hperm.symm]
  have h1eq : index_sources st docId s1
      = (stInsert st ("doc_" ++ toString docId) ⟨source_hash s1, prepChunks s1⟩, 1,
         "doc_" ++ toString docId) := by
    unfold index_sources index_core
    simp [h0, hch]
  have hlook1 : (stInsert st ("doc_" ++ toString docId)
        ⟨source_hash s1, prepChunks s1⟩).lookup ("doc_" ++ toString docId)
      = some ⟨source_hash s1, prepChunks s1⟩ := stInsert_lookup _ _ _
  have h2eq : index_sources (index_sources st docId s1).1 docId s2
      = ((index_sources st docId s1).1, 0, "doc_" ++ toString docId) := by
    rw [h1eq]
    unfold index_sources index_core
    simp [hlook1, hs21]
  have h3eq : index_sources (index_sources st docId s1).1 docId s3
      = (stInsert (index_sources st docId s1).1 ("doc_" ++ toString docId)
          ⟨source_hash s3, prepChunks s3⟩, 1, "doc_" ++ toString docId) := by
    rw [h1eq]
    unfold index_sources index_core
    simp [hlook1, hch3]
    intro hcon
    exact hdiff hcon
  refine ⟨by rw [h1eq], by rw [h2eq], by rw [h2eq], by rw [h3eq], ?_⟩
  rw [h3eq]
  exact stInsert_lookup _ _ _

/-- Concrete instance of `index_sources_idempotent`: indexing sources
`{1, 2}`, then the same two sources reordered, then `{1, 2, 3}`. -/
theorem index_sources_idempotent_witness :
    (index_sources [] 1 [⟨1, "a", "hello world", none⟩, ⟨2, "b", "foo", none⟩]).2.1 = 1 ∧
    (index_sources
      (index_sources [] 1 [⟨1, "a", "hello world", none⟩, ⟨2, "b", "foo", none⟩]).1 1
      [⟨2, "b", "foo", none⟩, ⟨1, "a", "hello world", none⟩]).2.1 = 0 ∧
    (index_sources
      (index_sources [] 1 [⟨1, "a", "hello world", none⟩, ⟨2, "b", "foo", none⟩]).1 1
      [⟨1, "a", "hello world", none⟩, ⟨2, "b", "foo", none⟩, ⟨3, "c", "bar", none⟩]).2.1
      = 1 := by
  have h := index_sources_idempotent [] 1
    [⟨1, "a", "hello world", none⟩, ⟨2, "b", "foo", none⟩]
    [⟨2, "b", "foo", none⟩, ⟨1, "a", "hello world", none⟩]
    [⟨1, "a", "hello world", none⟩, ⟨2, "b", "foo", none⟩, ⟨3, "c", "bar", none⟩]
    (by decide) (by decide) (by decide) (by decide) (by decide)
  exact ⟨h.1, h.2.1, h.2.2.2.1⟩

/-- Every keyword-phase result carries score 1. -/
theorem keywordScan_score (q : String) :
    ∀ es, ∀ r ∈ keywordScan q es, r.score = 1 := by
  intro es
  induction es with
  | nil =>
    intro r hr
    simp [keywordScan] at hr
  | cons e rest ih =>
    intro r hr
    by_cases hc : pyIn (pyLower q) (pyLower e.doc)
    · simp only [keywordScan, if_pos hc, List.mem_cons] at hr
      rcases hr with hr | hr
      · rw [hr]
      · exact ih r hr
    · simp only [keywordScan, if_neg hc] at hr
      exact ih r hr

/-- C3 (confirmed): whenever a stored chunk contains the query
case-insensitively, `search` returns exactly the first up-to-`top_k` keyword
matches in storage order, each with score 1, and makes no embedding-provider
call (the vector phase, including embedding the query, never runs). -/
theorem search_keyword_precedence (st : ServiceState) (name query : String)
    (topK : Nat) (vecCands : List VecCand) (coll : Collection)
    (hlook : st.lookup name = some coll)
    (hkm : keywordScan query coll.entries ≠ []) :
    search_core st name query topK vecCands
      = ((keywordScan query coll.entries).take topK, 0) ∧
    ∀ r ∈ (search_core st name query topK vecCands).1, r.score = 1 := by
  have heq : search_core st name query topK vecCands
      = ((keywordScan query coll.entries).take topK, 0) := by
    unfold search_core
    rw [hlook]
    simp [hkm]
  refine ⟨heq, ?_⟩
  rw [heq]
  intro r hr
  exact keywordScan_score query coll.entries r (List.mem_of_mem_take hr)

/-- Concrete instance of `search_keyword_precedence`: the spec's own example —
one "Notes" chunk, query `"mitochondria"`, one result with score 1, vector
candidates ignored. -/
theorem search_keyword_precedence_witness :
    search_core
        [("doc_1", ⟨"h", [⟨"1_0", "The mitochondria is the powerhouse of the cell.",
          ⟨1, "Notes", 0⟩⟩]⟩)]
        "doc_1" "mitochondria" 5 [⟨"other", ⟨2, "Other", 0⟩, 0⟩]
      = ([⟨1, "Notes", "The mitochondria is the powerhouse of the cell.", 1⟩], 0) :=
  (search_keyword_precedence
    [("doc_1", ⟨"h", [⟨"1_0", "The mitochondria is the powerhouse of the cell.",
      ⟨1, "Notes", 0⟩⟩]⟩)]
    "doc_1" "mitochondria" 5 [⟨"other", ⟨2, "Other", 0⟩, 0⟩]
    ⟨"h", [⟨"1_0", "The mitochondria is the powerhouse of the cell.", ⟨1, "Notes", 0⟩⟩]⟩
    (by decide) (by decide)).1.trans (by decide)

/-- `vectorResults` as a filter. -/
theorem vectorResults_eq_filterMap (cands : List VecCand) :
    vectorResults cands = cands.filterMap (fun c =>
      if (1 : ℚ) - c.dist ≥ 1 / 2 then
        some ⟨c.meta.sourceId, c.meta.sourceTitle, c.doc, 1 - c.dist⟩
      else none) := by
  induction cands with
  | nil => rfl
  | cons c rest ih =>
    by_cases hc : (1 : ℚ) - c.dist ≥ 1 / 2
    · simp only [vectorResults, if_pos hc, List.filterMap_cons, ih]
    · simp only [vectorResults, if_neg hc, List.filterMap_cons, ih]

/-- C4 (confirmed): when the keyword phase finds nothing, `search` embeds the
query (one provider call) and keeps a nearest-neighbour candidate with
distance `d` exactly when `1 - d >= 0.5` — the boundary is inclusive — scoring
it `1 - d`. -/
theorem search_vector_floor (st : ServiceState) (name query : String)
    (topK : Nat) (vecCands : List VecCand) (coll : Collection)
    (hlook : st.lookup name = some coll)
    (hkm : keywordScan query coll.entries = []) :
    search_core st name query topK vecCands = (vectorResults vecCands, 1) ∧
    ∀ c ∈ vecCands,
      ((⟨c.meta.sourceId, c.meta.sourceTitle, c.doc, 1 - c.dist⟩ : ChunkResult)
          ∈ (search_core st name query topK vecCands).1
        ↔ (1 : ℚ) - c.dist ≥ 1 / 2) := by
  have heq : search_core st name query topK vecCands = (vectorResults vecCands, 1) := by
    unfold search_core
    rw [hlook]
    simp [hkm]
  refine ⟨heq, ?_⟩
  rw [heq, vectorResults_eq_filterMap]
  intro c hc
  constructor
  · intro hmem
    rcases List.mem_filterMap.mp hmem with ⟨c', hc', hsome⟩
    by_cases hge : (1 : ℚ) - c'.dist ≥ 1 / 2
    · rw [if_pos hge] at hsome
      have hscore := congrArg ChunkResult.score (Option.some.inj hsome)
      simp only at hscore
      rw [hscore] at hge
      exact hge
    · rw [if_neg hge] at hsome
      exact absurd hsome (by simp)
  · intro hge
    exact List.mem_filterMap.mpr ⟨c, hc, by rw [if_pos hge]⟩

/-- Concrete instance of `search_vector_floor`: with no keyword match, a
candidate at distance `1/2` (similarity exactly `0.5`) is included and one at
distance `501/1000` (similarity `0.499`) is excluded. -/
theorem search_vector_floor_witness :
    ((⟨1, "Notes", "alpha", 1 - (1 / 2 : ℚ)⟩ : ChunkResult)
        ∈ (search_core [("doc_1", ⟨"h", [⟨"1_0", "beta", ⟨1, "Notes", 0⟩⟩]⟩)]
            "doc_1" "zzz" 5
            [⟨"alpha", ⟨1, "Notes", 0⟩, 1 / 2⟩, ⟨"gamma", ⟨1, "Notes", 1⟩, 501 / 1000⟩]).1) ∧
    ((⟨1, "Notes", "gamma", 1 - (501 / 1000 : ℚ)⟩ : ChunkResult)
        ∉ (search_core [("doc_1", ⟨"h", [⟨"1_0", "beta", ⟨1, "Notes", 0⟩⟩]⟩)]
            "doc_1" "zzz" 5
            [⟨"alpha", ⟨1, "Notes", 0⟩, 1 / 2⟩, ⟨"gamma", ⟨1, "Notes", 1⟩, 501 / 1000⟩]).1) := by
  have h := search_vector_floor
    [("doc_1", ⟨"h", [⟨"1_0", "beta", ⟨1, "Notes", 0⟩⟩]⟩)]
    "doc_1" "zzz" 5
    [⟨"alpha", ⟨1, "Notes", 0⟩, 1 / 2⟩, ⟨"gamma", ⟨1, "Notes", 1⟩, 501 / 1000⟩]
    ⟨"h", [⟨"1_0", "beta", ⟨1, "Notes", 0⟩⟩]⟩
    (by decide) (by decide)
  constructor
  · exact (h.2 ⟨"alpha", ⟨1, "Notes", 0⟩, 1 / 2⟩ (by simp)).mpr (by norm_num)
  · intro hmem
    have hge := (h.2 ⟨"gamma", ⟨1, "Notes", 1⟩, 501 / 1000⟩ (by simp)).mp hmem
    norm_num at hge

/-- All-empty sources prepare no chunks. -/
theorem prepChunks_eq_nil (sources : List Source)
    (h : ∀ s ∈ sources, effContent s = "") : prepChunks sources = [] := by
  induction sources with
  | nil => rfl
  | cons s rest ih =>
    have hs := h s (List.mem_cons_self s rest)
    simp only [prepChunks, if_pos hs]
    exact ih (fun x hx => h x (List.mem_cons_of_mem s hx))

/-- C7 (confirmed): `search` on a context with no collection returns `[]`
without embedding; and indexing an all-empty source set records an empty
collection for the context, after which `search` (whose nearest-neighbour
candidates necessarily come from the — empty — collection) returns `[]`
rather than erroring. -/
theorem search_missing_or_empty_index :
    (∀ (st : ServiceState) (name query : String) (topK : Nat) (vecCands : List VecCand),
      st.lookup name = none →
      search_core st name query topK vecCands = ([], 0)) ∧
    (∀ (st : ServiceState) (docId : Int) (sources : List Source) (query : String)
        (topK : Nat) (vecCands : List VecCand),
      (∀ s ∈ sources, effContent s = "") →
      st.lookup ("doc_" ++ toString docId) = none →
      (∀ c ∈ vecCands, ∃ e ∈ (⟨source_hash sources, []⟩ : Collection).entries, e.doc = c.doc) →
      (index_sources st docId sources).1.lookup ("doc_" ++ toString docId)
        = some ⟨source_hash sources, []⟩ ∧
      search_core (index_sources st docId sources).1 ("doc_" ++ toString docId)
        query topK vecCands = ([], 1)) := by
  constructor
  · intro st name query topK vecCands h0
    unfold search_core
    rw [h0]
  · intro st docId sources query topK vecCands hemp h0 hcands
    have hpc : prepChunks sources = [] := prepChunks_eq_nil sources hemp
    have hidx : index_sources st docId sources
        = (stInsert st ("doc_" ++ toString docId) ⟨source_hash sources, []⟩, 0,
           "doc_" ++ toString docId) := by
      unfold index_sources index_core
      simp [h0, hpc]
    have hlook : (index_sources st docId sources).1.lookup ("doc_" ++ toString docId)
        = some ⟨source_hash sources, []⟩ := by
      rw [hidx]
      exact stInsert_lookup _ _ _
    have hvc : vecCands = [] := by
      cases vecCands with
      | nil => rfl
      | cons c cs =>
        rcases hcands c (List.mem_cons_self c cs) with ⟨e, he, _⟩
        exact absurd he (List.not_mem_nil e)
    refine ⟨hlook, ?_⟩
    unfold search_core
    rw [hlook, hvc]
    simp [keywordScan, vectorResults]

/-- Concrete instance of `search_missing_or_empty_index`: an unindexed
context, and a context indexed from one empty source. -/
theorem search_missing_or_empty_index_witness :
    search_core [] "doc_9" "q" 5 [] = ([], 0) ∧
    search_core (index_sources [] 2 [⟨5, "t", "", none⟩]).1 "doc_2" "q" 5 [] = ([], 1) :=
  ⟨search_missing_or_empty_index.1 [] "doc_9" "q" 5 [] (by decide),
   (search_missing_or_empty_index.2 [] 2 [⟨5, "t", "", none⟩] "q" 5 []
     (by decide) (by decide) (by decide)).2⟩

/-- The empty needle is a substring of everything (Python `"" in s` is true). -/
theorem pyInAux_nil (l : List Char) : pyInAux [] l = true := by
  cases l with
  | nil => rfl
  | cons c t => simp [pyInAux, List.isPrefixOf]

/-- With the empty query every stored chunk is a keyword match. -/
theorem keywordScan_empty_query (es : List ChunkEntry) :
    keywordScan "" es
      = es.map (fun e => ⟨e.meta.sourceId, e.meta.sourceTitle, e.doc, 1⟩) := by
  induction es with
  | nil => rfl
  | cons e rest ih =>
    have hin : pyIn (pyLower "") (pyLower e.doc) = true := pyInAux_nil _
    simp only [keywordScan, if_pos (by exact hin), List.map_cons, ih]

/-- C10 (confirmed): on an indexed context with at least one stored chunk,
the empty-string query matches every chunk in the keyword phase, so `search`
returns the first `min(top_k, #chunks)` stored chunks with score 1 and never
calls the embedding provider. -/
theorem search_empty_query (st : ServiceState) (name : String) (topK : Nat)
    (vecCands : List VecCand) (coll : Collection)
    (hlook : st.lookup name = some coll)
    (hne : coll.entries ≠ []) :
    (search_core st name "" topK vecCands).2 = 0 ∧
    (search_core st name "" topK vecCands).1.length = min topK coll.entries.length ∧
    ∀ r ∈ (search_core st name "" topK vecCands).1, r.score = 1 := by
  have hkm : keywordScan "" coll.entries ≠ [] := by
    rw [keywordScan_empty_query]
    simpa using hne
  have heq : search_core st name "" topK vecCands
      = ((keywordScan "" coll.entries).take topK, 0) := by
    unfold search_core
    rw [hlook]
    simp [hkm]
  rw [heq]
  refine ⟨rfl, ?_, ?_⟩
  · rw [keywordScan_empty_query]
    simp [List.length_take]
  · intro r hr
    exact keywordScan_score "" coll.entries r (List.mem_of_mem_take hr)

/-- C9: the event-frame pattern of `clean_response` is not tolerant of a
nested bracket pair in the payload. On `A[EVENT:x:{"a":[1,2]}]B` the greedy
leading `[^\]]*` consumes the nested `[`, the `(?:\[[^\]]*\])*` group never
engages, and the match ends at the first `]`, so the result is `A}]B`, not
the claimed `AB`. -/
theorem clean_response_nested_counterexample :
    clean_response "A[EVENT:x:\x7b\"a\":[1,2]\x7d]B" = "A\x7d]B" ∧
    clean_response "A[EVENT:x:\x7b\"a\":[1,2]\x7d]B" ≠ "AB" := by
  decide

/-- Every fragment yielded by the tool-call processing is an event frame. -/
theorem processToolCalls_events
    (searchFn : String → String × List String × List PyJson) :
    ∀ tcs msgs, ∀ f ∈ (processToolCalls searchFn tcs msgs).1, isEventFrame f := by
  intro tcs
  induction tcs with
  | nil =>
    intro msgs f hf
    simp [processToolCalls] at hf
  | cons tc rest ih =>
    intro msgs f hf
    by_cases hn : tc.name = "search_sources"
    · simp only [processToolCalls, if_pos hn] at hf
      rcases List.mem_cons.mp hf with h1 | hf2
      · refine ⟨"search_start",
          pyDumps (.obj [("query", .str (extractQuery tc.arguments))]), ?_⟩
        rw [h1, show ("[EVENT:" ++ "search_start" ++ ":" : String)
          = "[EVENT:search_start:" from rfl]
      · rcases List.mem_cons.mp hf2 with h2 | hf3
        · refine ⟨"search_complete",
            pyDumps (.obj [("sources",
                .arr ((searchFn (extractQuery tc.arguments)).2.1.map PyJson.str)),
              ("chunks", .arr (searchFn (extractQuery tc.arguments)).2.2)]), ?_⟩
          rw [h2, show ("[EVENT:" ++ "search_complete" ++ ":" : String)
            = "[EVENT:search_complete:" from rfl]
        · exact ih _ f hf3
    · simp only [processToolCalls, if_neg hn] at hf
      exact ih msgs f hf

/-- A model that always requests the tool drives `_agentic_loop` through all
its iterations: with `fuel` iterations left it makes exactly `fuel` model
calls and yields event frames followed by the interruption fragment. -/
theorem agenticStep_all_tool_calls
    (model : List Msg → Option AssistantMsg)
    (searchFn : String → String × List String × List PyJson)
    (hm : ∀ ms, ∃ m, model ms = some m ∧ m.toolCalls ≠ []) :
    ∀ fuel msgs, (agenticStep model searchFn fuel msgs).2 = fuel ∧
      ∃ evs, (agenticStep model searchFn fuel msgs).1 = evs ++ [INTERRUPT_MSG] ∧
        ∀ f ∈ evs, isEventFrame f := by
  intro fuel
  induction fuel with
  | zero =>
    intro msgs
    exact ⟨rfl, [], rfl, by simp⟩
  | succ n ih =>
    intro msgs
    obtain ⟨m, hmod, htc⟩ := hm msgs
    have hne : m.toolCalls.isEmpty = false := by
      cases h : m.toolCalls with
      | nil => exact absurd h htc
      | cons a l => rfl
    obtain ⟨hcount, evs, hevs, hall⟩ := ih (processToolCalls searchFn m.toolCalls msgs).2
    constructor
    · simp only [agenticStep, hmod, hne, Bool.false_eq_true, if_false]
      rw [hcount]
    · refine ⟨(processToolCalls searchFn m.toolCalls msgs).1 ++ evs, ?_, ?_⟩
      · simp only [agenticStep, hmod, hne, Bool.false_eq_true, if_false]
        rw [hevs, List.append_assoc]
      · intro f hf
        rcases List.mem_append.mp hf with h | h
        · exact processToolCalls_events searchFn m.toolCalls msgs f h
        · exact hall f h

/-- C5 (confirmed): if the model's reply requests the search tool on every
iteration, `_agentic_loop` makes exactly `max_iterations = 3` model calls —
never a fourth — and its yielded stream consists of event frames followed by
the fixed interruption fragment in place of model output; the loop then
terminates. -/
theorem agentic_loop_bound
    (model : List Msg → Option AssistantMsg)
    (searchFn : String → String × List String × List PyJson)
    (msgs : List Msg)
    (hm : ∀ ms, ∃ m, model ms = some m ∧ m.toolCalls ≠ []) :
    (agenticLoop model searchFn msgs).2 = MAX_ITERATIONS ∧
    ∃ evs, (agenticLoop model searchFn msgs).1 = evs ++ [INTERRUPT_MSG] ∧
      ∀ f ∈ evs, isEventFrame f :=
  agenticStep_all_tool_calls model searchFn hm MAX_ITERATIONS msgs

/-- Concrete instance of `agentic_loop_bound`: a model that always asks to
search `"q"` is cut off after exactly 3 calls. -/
theorem agentic_loop_bound_witness :
    (agenticLoop
      (fun _ => some ⟨[⟨"id1", "search_sources", "\x7b\"query\": \"q\"\x7d"⟩], none⟩)
      (fun _ => ("Aucun résultat trouvé dans les sources.", [], []))
      [.user "bonjour"]).2 = MAX_ITERATIONS :=
  (agentic_loop_bound _ _ _ (fun _ => ⟨_, rfl, by simp⟩)).1

/-- Concrete instance of `search_empty_query`: two stored chunks, `top_k = 1`,
empty query — one result, score 1, no provider call. -/
theorem search_empty_query_witness :
    (search_core [("doc_1", ⟨"h", [⟨"1_0", "aa", ⟨1, "A", 0⟩⟩, ⟨"1_1", "bb", ⟨1, "A", 1⟩⟩]⟩)]
        "doc_1" "" 1 []).2 = 0 ∧
    (search_core [("doc_1", ⟨"h", [⟨"1_0", "aa", ⟨1, "A", 0⟩⟩, ⟨"1_1", "bb", ⟨1, "A", 1⟩⟩]⟩)]
        "doc_1" "" 1 []).1.length = min 1 2 := by
  have h := search_empty_query
    [("doc_1", ⟨"h", [⟨"1_0", "aa", ⟨1, "A", 0⟩⟩, ⟨"1_1", "bb", ⟨1, "A", 1⟩⟩]⟩)]
    "doc_1" 1 []
    ⟨"h", [⟨"1_0", "aa", ⟨1, "A", 0⟩⟩, ⟨"1_1", "bb", ⟨1, "A", 1⟩⟩]⟩
    (by decide) (by decide)
  exact ⟨h.1, h.2.1⟩

end Champollion
